import Mathlib

/-!
Verification of the QuantPilot python-ml-service core.

This file gives a shallow embedding, over exact rationals, of the
computational core of the service:

* `Backtester.run_backtest` and `Backtester._calculate_metrics`
  (src/python-ml-service/backtesting.py),
* `extract_features` and its indicator helpers
  (src/python-ml-service/feature_engineering.py),
* `MLEnsemble.predict` / `calculate_confidence` / `get_feature_importance`
  (src/python-ml-service/models.py),

and proves the specification's testable properties about them.

Modelling conventions:
* Python/numpy floats are modelled as exact rationals; where the code can
  produce non-finite floats (division by zero, `np.log`, missing rolling
  windows) values live in `FVal`, a rational extended with `pinf`, `ninf`
  and `nan` obeying the IEEE-754 propagation rules for the operations the
  code uses (rounding is not modelled; no claim depends on rounding).
* The irrational primitives `np.log` and `np.sqrt` are abstracted as
  function parameters (`rlog`, `rsqrt`); every theorem below holds for an
  arbitrary interpretation of them.
* Member regressors of the ensemble are abstract functions, as in the
  spec ("abstract Predictor capability").
-/

namespace QuantPilot

/-! ## Backtesting engine (src/python-ml-service/backtesting.py) -/

/-- Trade actions; the Python code uses the strings `BUY` / `SELL`. -/
inductive Action
  | buy
  | sell
deriving DecidableEq, Repr

/-- The `reason` tag of a SELL trade.  BUY trades carry no reason in the
Python dict; they are given `noReason` here. -/
inductive SellReason
  | takeProfit
  | stopLoss
  | bearishSignal
  | timeExit
  | finalExit
  | noReason
deriving DecidableEq, Repr

/-- One entry of the trade ledger (the dicts appended to `self.trades`).
`date` holds the entry of the `dates` list recorded for the trade. -/
structure Trade where
  date : ℕ
  action : Action
  price : ℚ
  shares : ℚ
  predicted_price : ℚ
  confidence : ℚ
  profit : ℚ
  reason : SellReason
deriving DecidableEq, Repr

/-- `Backtester.__init__` state: initial capital and commission rate. -/
structure BTConfig where
  initial_capital : ℚ
  commission : ℚ
deriving DecidableEq, Repr

/-- The mutable local state of the trading loop in `run_backtest`:
`cash`, `shares`, `position` (`true` iff the Python variable equals
`'LONG'`), the ledger `self.trades`, `entry_price`, `portfolio_values`
and `daily_returns`. -/
structure BTState where
  cash : ℚ
  shares : ℚ
  position : Bool
  trades : List Trade
  entry_price : ℚ
  portfolio_values : List ℚ
  daily_returns : List ℚ
deriving DecidableEq, Repr

/-- The `should_sell` / `sell_reason` chain of `run_backtest`
(backtesting.py lines 105-128), evaluated while in a LONG position:
take-profit at `entry*1.02`, stop-loss at `entry*0.985`, bearish signal
at predicted return `< -0.002` with confidence `≥ 0.60`, then the
time-based exit.  The time-based exit reproduces the code verbatim:
`last_buy_idx` is the NUMBER of BUY trades minus one (not the bar index
of the last BUY), and the exit fires when `i - last_buy_idx >= 10`. -/
def sellReasonAt (pred conf price entry : ℚ) (i : ℕ) (trades : List Trade) :
    Option SellReason :=
  if price ≥ entry * (51/50) then some .takeProfit
  else if price ≤ entry * (197/200) then some .stopLoss
  else if pred < -(1/500) ∧ conf ≥ 3/5 then some .bearishSignal
  else if 0 < trades.length then
    let last_buy_idx : ℤ :=
      ((trades.filter fun t => decide (t.action = .buy)).length : ℤ) - 1
    if (i : ℤ) - last_buy_idx ≥ 10 then some .timeExit else none
  else none

/-- One iteration of the trading loop of `Backtester.run_backtest`
(backtesting.py lines 54-147).  `pred`, `conf`, `price`, `date` are
`predictions[i]`, `confidence[i]`, `y_test.iloc[i]`, `dates[i]`.
Thresholds: `0.002 = 1/500`, `0.60 = 3/5`. -/
def backtestStep (cfg : BTConfig) (pred conf price : ℚ) (i date : ℕ)
    (s : BTState) : BTState :=
  let current_value := s.cash + s.shares * price
  let pv := s.portfolio_values ++ [current_value]
  let dr :=
    if 0 < i then
      let prev := s.portfolio_values.getD (i - 1) 0
      s.daily_returns ++ [(current_value - prev) / prev]
    else s.daily_returns
  let predicted_price := price * (1 + pred)
  let s0 : BTState := { s with portfolio_values := pv, daily_returns := dr }
  if pred > 1/500 ∧ conf ≥ 3/5 ∧ s.position ≠ true then
    if s.cash > 0 then
      let cost := price * (1 + cfg.commission)
      let sh := s.cash / cost
      { s0 with
        cash := 0
        shares := sh
        position := true
        entry_price := price
        trades := s.trades ++
          [⟨date, .buy, price, sh, predicted_price, conf, 0, .noReason⟩] }
    else s0
  else if s.position = true ∧ s.shares > 0 then
    match sellReasonAt pred conf price s.entry_price i s.trades with
    | some r =>
        let sell_price := price * (1 - cfg.commission)
        let profit := s.shares * (sell_price - s.entry_price * (1 + cfg.commission))
        { s0 with
          cash := s.shares * sell_price
          shares := 0
          position := false
          trades := s.trades ++
            [⟨date, .sell, price, 0, predicted_price, conf, profit, r⟩] }
    | none => s0
  else s0

/-- The trading state before the loop starts (backtesting.py lines 44-51). -/
def initState (cfg : BTConfig) : BTState :=
  { cash := cfg.initial_capital
    shares := 0
    position := false
    trades := []
    entry_price := 0
    portfolio_values := []
    daily_returns := [] }

/-- The trading state after the first `k` iterations of the loop
`for i in range(len(X_test) - 1)`. -/
def runLoop (cfg : BTConfig) (preds confs prices : List ℚ) (dates : List ℕ)
    (k : ℕ) : BTState :=
  (List.range k).foldl
    (fun s i =>
      backtestStep cfg (preds.getD i 0) (confs.getD i 0) (prices.getD i 0) i
        (dates.getD i 0) s)
    (initState cfg)

/-- The state after the whole loop (`k = len(X_test) - 1` iterations) and
the forced final liquidation (backtesting.py lines 149-166).  As in the
code, the final SELL resets `shares` and `cash` but leaves the local
`position` variable untouched. -/
def finalState (cfg : BTConfig) (preds confs prices : List ℚ)
    (dates : List ℕ) : BTState :=
  let s := runLoop cfg preds confs prices dates (preds.length - 1)
  if s.shares > 0 then
    let final_price := prices.getLast?.getD 0
    let sell_price := final_price * (1 - cfg.commission)
    let profit := s.shares * (sell_price - s.entry_price * (1 + cfg.commission))
    { s with
      cash := s.shares * sell_price
      shares := 0
      trades := s.trades ++
        [⟨dates.getLast?.getD 0, .sell, final_price, 0, final_price, 1/2,
          profit, .finalExit⟩] }
  else s

/-- `[t for t in self.trades if t['action'] == 'SELL']`. -/
def sellTrades (trades : List Trade) : List Trade :=
  trades.filter fun t => decide (t.action = .sell)

/-- Winning SELL trades (`t.get('profit', 0) > 0`). -/
def winningTrades (trades : List Trade) : List Trade :=
  (sellTrades trades).filter fun t => decide (0 < t.profit)

/-- Losing SELL trades (`t.get('profit', 0) < 0`). -/
def losingTrades (trades : List Trade) : List Trade :=
  (sellTrades trades).filter fun t => decide (t.profit < 0)

/-- `gross_profit = sum(t.get('profit', 0) for t in winning_trades)`. -/
def grossProfit (trades : List Trade) : ℚ :=
  ((winningTrades trades).map (·.profit)).sum

/-- `gross_loss = abs(sum(t.get('profit', 0) for t in losing_trades))`. -/
def grossLoss (trades : List Trade) : ℚ :=
  |((losingTrades trades).map (·.profit)).sum|

/-- The profit-factor computation of `Backtester._calculate_metrics`
(backtesting.py lines 234-239): gross profit over gross loss, `999.0`
when there are no losses but some profit, `1.0` when both are zero. -/
def profitFactor (trades : List Trade) : ℚ :=
  if grossLoss trades > 0 then grossProfit trades / grossLoss trades
  else if grossProfit trades > 0 then 999
  else 1

/-- The maximum-drawdown loop of `_calculate_metrics` (lines 214-221),
folded over the equity curve with accumulator `(peak, max_drawdown)`. -/
def maxDrawdown (initial : ℚ) (pv : List ℚ) : ℚ :=
  (pv.foldl
    (fun (acc : ℚ × ℚ) value =>
      let peak := if value > acc.1 then value else acc.1
      let drawdown := if peak > 0 then (peak - value) / peak else 0
      (peak, if drawdown > acc.2 then drawdown else acc.2))
    (initial, 0)).2

/-- The metrics dict of `_calculate_metrics` that are exact-rational
computations.  `annualized_return` and `sharpe_ratio` involve real
`power`/`sqrt` on the equity curve and are referenced by no claim, so
they are not carried in this record. -/
structure BTMetrics where
  total_return : ℚ
  max_drawdown : ℚ
  win_rate : ℚ
  profit_factor : ℚ
  num_trades : ℕ
  num_wins : ℕ
  num_losses : ℕ
  avg_win : ℚ
  avg_loss : ℚ
  expectancy : ℚ
  total_commission : ℚ
deriving DecidableEq, Repr

/-- `Backtester._calculate_metrics` (exact-rational part). -/
def calculateMetrics (cfg : BTConfig) (portfolio_values : List ℚ)
    (trades : List Trade) (final_value : ℚ) : BTMetrics :=
  let total_return := ((final_value - cfg.initial_capital) / cfg.initial_capital) * 100
  let sells := sellTrades trades
  let wins := winningTrades trades
  let losses := losingTrades trades
  let win_rate : ℚ := if sells.length ≠ 0 then ((wins.length : ℚ) / sells.length) * 100 else 0
  let gp := grossProfit trades
  let gl := grossLoss trades
  let avg_win : ℚ := if wins.length ≠ 0 then gp / wins.length else 0
  let avg_loss : ℚ := if losses.length ≠ 0 then gl / losses.length else 0
  let expectancy : ℚ :=
    if sells.length ≠ 0 then (win_rate / 100 * avg_win) - ((1 - win_rate / 100) * avg_loss)
    else 0
  { total_return := total_return
    max_drawdown := maxDrawdown cfg.initial_capital portfolio_values * 100
    win_rate := win_rate
    profit_factor := profitFactor trades
    num_trades := trades.length
    num_wins := wins.length
    num_losses := losses.length
    avg_win := avg_win
    avg_loss := avg_loss
    expectancy := expectancy
    total_commission :=
      (trades.filter fun t => decide (t.action = .buy)).foldl
        (fun a t => a + t.price * t.shares * cfg.commission) 0 }

/-- The dictionary returned by `run_backtest` (lines 175-181). -/
structure BTResult where
  initial_capital : ℚ
  final_value : ℚ
  total_return : ℚ
  trades : List Trade
  metrics : BTMetrics
deriving DecidableEq, Repr

/-- `Backtester.run_backtest`, parametrised directly by the prediction and
confidence arrays the code obtains from `model.predict` /
`model.calculate_confidence` at its top. -/
def run_backtest (cfg : BTConfig) (preds confs prices : List ℚ)
    (dates : List ℕ) : BTResult :=
  let s := finalState cfg preds confs prices dates
  let final_value := s.cash
  let pv := s.portfolio_values ++ [final_value]
  { initial_capital := cfg.initial_capital
    final_value := final_value
    total_return := ((final_value - cfg.initial_capital) / cfg.initial_capital) * 100
    trades := s.trades
    metrics := calculateMetrics cfg pv s.trades final_value }

/-! ### Ledger-shape vocabulary used by the invariants -/

/-- The other trade action. -/
def otherAction : Action → Action
  | .buy => .sell
  | .sell => .buy

/-- `alternatesFrom e l` : the action list `l` reads `e`, `otherAction e`,
`e`, ... from its head. -/
def alternatesFrom : Action → List Action → Bool
  | _, [] => true
  | e, a :: r => decide (a = e) && alternatesFrom (otherAction e) r

/-- Action sequence of a ledger. -/
def actionsOf (trades : List Trade) : List Action :=
  trades.map (·.action)

/-- Number of BUY trades in a ledger. -/
def countBuys (trades : List Trade) : ℕ :=
  (trades.filter fun t => decide (t.action = .buy)).length

/-- Number of SELL trades in a ledger. -/
def countSells (trades : List Trade) : ℕ :=
  (trades.filter fun t => decide (t.action = .sell)).length

/-- Number of occurrences of action `a` in an action list. -/
def countAct (a : Action) (l : List Action) : ℕ :=
  (l.filter fun x => decide (x = a)).length

/-- Loop invariant of the trading simulation: cash and shares stay
nonnegative, the position flag tracks a positive share count, a flat
state keeps positive cash, and the ledger alternates BUY/SELL starting
with BUY, being in a long position exactly after an odd number of
trades. -/
def BTInv (s : BTState) : Prop :=
  0 ≤ s.cash ∧ 0 ≤ s.shares ∧ (s.position = true ↔ 0 < s.shares) ∧
    (s.position = false → 0 < s.cash) ∧
    alternatesFrom .buy (actionsOf s.trades) = true ∧
    (s.position = true ↔ s.trades.length % 2 = 1)

/-! ## Extended float values

`FVal` models an IEEE-754 double without rounding: an exact rational,
`+inf`, `-inf` or `nan`.  Only the propagation rules for the operations
`feature_engineering.py` performs are defined; comparisons follow Python
semantics (`nan` compares false). -/

inductive FVal
  | q (x : ℚ)
  | pinf
  | ninf
  | nan
deriving DecidableEq, Repr

namespace FVal

/-- `pd.isna` on a scalar. -/
def isna : FVal → Bool
  | nan => true
  | _ => false

/-- `np.isinf`. -/
def isInf : FVal → Bool
  | pinf => true
  | ninf => true
  | _ => false

/-- Value is an ordinary finite float. -/
def isFin : FVal → Bool
  | q _ => true
  | _ => false

/-- Float negation. -/
def neg : FVal → FVal
  | q a => q (-a)
  | pinf => ninf
  | ninf => pinf
  | nan => nan

/-- Float addition. -/
def add : FVal → FVal → FVal
  | q a, q b => q (a + b)
  | nan, _ => nan
  | _, nan => nan
  | pinf, ninf => nan
  | ninf, pinf => nan
  | pinf, _ => pinf
  | _, pinf => pinf
  | ninf, _ => ninf
  | _, ninf => ninf

/-- Float subtraction. -/
def sub (a b : FVal) : FVal := add a (neg b)

/-- Float multiplication. -/
def mul : FVal → FVal → FVal
  | q a, q b => q (a * b)
  | nan, _ => nan
  | _, nan => nan
  | pinf, pinf => pinf
  | pinf, ninf => ninf
  | ninf, pinf => ninf
  | ninf, ninf => pinf
  | pinf, q b => if 0 < b then pinf else if b < 0 then ninf else nan
  | q a, pinf => if 0 < a then pinf else if a < 0 then ninf else nan
  | ninf, q b => if 0 < b then ninf else if b < 0 then pinf else nan
  | q a, ninf => if 0 < a then ninf else if a < 0 then pinf else nan

/-- Float division (numpy semantics: `x/0` is a signed infinity for
`x ≠ 0` and `nan` for `0/0`; signed zeros are not modelled). -/
def div : FVal → FVal → FVal
  | q a, q b =>
      if b ≠ 0 then q (a / b) else if 0 < a then pinf else if a < 0 then ninf else nan
  | nan, _ => nan
  | _, nan => nan
  | q _, pinf => q 0
  | q _, ninf => q 0
  | pinf, q b => if 0 ≤ b then pinf else ninf
  | ninf, q b => if 0 ≤ b then ninf else pinf
  | pinf, pinf => nan
  | pinf, ninf => nan
  | ninf, pinf => nan
  | ninf, ninf => nan

/-- Python `<` on floats (`nan` incomparable). -/
def flt : FVal → FVal → Bool
  | q a, q b => decide (a < b)
  | nan, _ => false
  | _, nan => false
  | ninf, ninf => false
  | pinf, pinf => false
  | ninf, _ => true
  | _, pinf => true
  | _, _ => false

/-- Python `<=` on floats. -/
def fle : FVal → FVal → Bool
  | q a, q b => decide (a ≤ b)
  | nan, _ => false
  | _, nan => false
  | ninf, _ => true
  | _, pinf => true
  | _, _ => false

/-- `abs`. -/
def fabs : FVal → FVal
  | q a => q |a|
  | nan => nan
  | _ => pinf

/-- The rational carried by a finite value. -/
def toQ : FVal → Option ℚ
  | q a => some a
  | _ => none

end FVal

/-! ## Series helpers (pandas operations used by feature_engineering.py) -/

/-- `l.iloc[-k]` for `1 ≤ k ≤ len(l)` (out-of-range defaults to `0`;
every use below is guarded by a length test exactly as in the source). -/
def ilocNeg (l : List ℚ) (k : ℕ) : ℚ :=
  l.getD (l.length - k) 0

/-- `l.iloc[-1]` with an explicit default. -/
def lastD (l : List ℚ) (d : ℚ) : ℚ :=
  l.getLast?.getD d

/-- `l.iloc[-k:]`, the last `k` elements (all of `l` when `k ≥ len(l)`). -/
def lastN {α : Type} (l : List α) (k : ℕ) : List α :=
  l.drop (l.length - k)

/-- `l.rolling(window=w).mean()` evaluated at the last index: defined
exactly when the window is full. -/
def rollMeanLast (w : ℕ) (l : List ℚ) : Option ℚ :=
  if 0 < w ∧ w ≤ l.length then some ((lastN l w).sum / (w : ℚ)) else none

/-- Sample variance with `ddof=1` (the pandas default), `none` when
fewer than two observations. -/
def sampleVar (l : List ℚ) : Option ℚ :=
  if 2 ≤ l.length then
    let m := l.sum / (l.length : ℚ)
    some ((l.map fun x => (x - m) ^ 2).sum / ((l.length - 1 : ℕ) : ℚ))
  else none

/-- `pd.Series.mean()` with the default `skipna=True`: `nan` entries are
dropped, infinities propagate through `FVal` arithmetic, an empty or
all-`nan` series has mean `nan`. -/
def sMean (l : List FVal) : FVal :=
  let v := l.filter fun x => !x.isna
  if v.length = 0 then .nan
  else FVal.div (v.foldl FVal.add (.q 0)) (.q (v.length : ℚ))

/-- `pd.Series.var(ddof=1)` with `skipna=True`. -/
def sVar (l : List FVal) : FVal :=
  let v := l.filter fun x => !x.isna
  if v.length ≤ 1 then .nan
  else
    let m := sMean l
    FVal.div ((v.map fun x => FVal.mul (FVal.sub x m) (FVal.sub x m)).foldl FVal.add (.q 0))
      (.q ((v.length - 1 : ℕ) : ℚ))

/-- `pd.Series.std(ddof=1)` = `sqrt` of the sample variance; `rsqrt`
abstracts `np.sqrt`. -/
def sStd (rsqrt : FVal → FVal) (l : List FVal) : FVal :=
  rsqrt (sVar l)

/-- `pd.Series.cov` over aligned pairs (pairs with a `nan` are dropped,
`ddof=1`). -/
def sCov (l : List (FVal × FVal)) : FVal :=
  let v := l.filter fun p => !p.1.isna && !p.2.isna
  if v.length ≤ 1 then .nan
  else
    let m1 := sMean (v.map (·.1))
    let m2 := sMean (v.map (·.2))
    FVal.div
      ((v.map fun p => FVal.mul (FVal.sub p.1 m1) (FVal.sub p.2 m2)).foldl FVal.add (.q 0))
      (.q ((v.length - 1 : ℕ) : ℚ))

/-- `np.mean` (no `nan` skipping). -/
def npMean (l : List FVal) : FVal :=
  if l.length = 0 then .nan
  else FVal.div (l.foldl FVal.add (.q 0)) (.q (l.length : ℚ))

/-- `pd.Series.pct_change()`: head is `nan`, then `x_t / x_{t-1} - 1`
with float division. -/
def pctChange (l : List ℚ) : List FVal :=
  match l with
  | [] => []
  | _ =>
      .nan :: ((l.drop 1).zip l).map fun p => FVal.sub (FVal.div (.q p.1) (.q p.2)) (.q 1)

/-- Last element of a float series. -/
def lastF (l : List FVal) : FVal :=
  l.getLast?.getD .nan

/-- `Series.ewm(span=span, adjust=False).mean()`: recursive exponential
smoothing with `alpha = 2/(span+1)`, as a full series. -/
def ewmaSeries (span : ℕ) (l : List ℚ) : List ℚ :=
  let a : ℚ := 2 / ((span : ℚ) + 1)
  (l.foldl
    (fun acc x =>
      match acc with
      | [] => [x]
      | y :: _ => (a * x + (1 - a) * y) :: acc)
    []).reverse

/-- Last value of the exponentially weighted mean. -/
def ewmaLast (span : ℕ) (l : List ℚ) : ℚ :=
  lastD (ewmaSeries span l) 0

/-! ## feature_engineering.py indicator helpers -/

/-- One OHLCV price bar (the `date` column plays no role in feature
extraction and is omitted). -/
structure Bar where
  open_ : ℚ
  high : ℚ
  low : ℚ
  close : ℚ
  volume : ℚ
deriving DecidableEq, Repr

/-- `feature_engineering.calculate_rsi` (lines 11-19): rolling-mean
gains/losses over `period`, `rs = gain/loss` with float division, `rsi =
100 - 100/(1+rs)`, defaulting to `50.0` when the last value is `nan`.
The head of `prices.diff()` is `nan`; `delta.where(delta > 0, 0)` turns
it into `0` (as `nan > 0` is false). -/
def calculate_rsi (prices : List ℚ) (period : ℕ) : FVal :=
  let deltas := ((prices.drop 1).zip prices).map fun p => p.1 - p.2
  let gain : List ℚ :=
    match prices with
    | [] => []
    | _ => 0 :: deltas.map fun d => if 0 < d then d else 0
  let loss : List ℚ :=
    match prices with
    | [] => []
    | _ => 0 :: deltas.map fun d => if d < 0 then -d else 0
  match rollMeanLast period gain, rollMeanLast period loss with
  | some g, some l =>
      let rs := FVal.div (.q g) (.q l)
      let rsi := FVal.sub (.q 100) (FVal.div (.q 100) (FVal.add (.q 1) rs))
      if rsi.isna then .q 50 else rsi
  | _, _ => .q 50

/-- Output record of `calculate_macd`. -/
structure MACDOut where
  macd : ℚ
  signal : ℚ
  histogram : ℚ
deriving DecidableEq, Repr

/-- `feature_engineering.calculate_macd` (lines 22-35). -/
def calculate_macd (prices : List ℚ) (fast slow signal : ℕ) : MACDOut :=
  let ema_fast := ewmaSeries fast prices
  let ema_slow := ewmaSeries slow prices
  let macdS := List.zipWith (fun a b => a - b) ema_fast ema_slow
  let signalS := ewmaSeries signal macdS
  let histS := List.zipWith (fun a b => a - b) macdS signalS
  ⟨lastD macdS 0, lastD signalS 0, lastD histS 0⟩

/-- Output record of `calculate_bollinger_bands`. -/
structure BollOut where
  upper : FVal
  middle : FVal
  lower : FVal
  pos : FVal
deriving DecidableEq, Repr

/-- `feature_engineering.calculate_bollinger_bands` (lines 38-59);
the rolling mean/std are `nan` while the 20-bar window is not full. -/
def calculate_bollinger_bands (rsqrt : FVal → FVal) (prices : List ℚ)
    (period : ℕ) (num_std : ℚ) : BollOut :=
  let sma : FVal :=
    match rollMeanLast period prices with
    | some m => .q m
    | none => .nan
  let std : FVal :=
    if period ≤ prices.length then
      match sampleVar (lastN prices period) with
      | some v => rsqrt (.q v)
      | none => .nan
    else .nan
  let upper := FVal.add sma (FVal.mul std (.q num_std))
  let lower := FVal.sub sma (FVal.mul std (.q num_std))
  let c : FVal := .q (lastD prices 0)
  let pos :=
    if FVal.flt (.q 0) (FVal.sub upper lower) then
      FVal.div (FVal.sub c lower) (FVal.sub upper lower)
    else .q (1/2)
  ⟨upper, sma, lower, pos⟩

/-- True ranges of `calculate_atr`: row 0 is `high-low` (the shifted
terms are `nan` and `DataFrame.max(axis=1)` skips them), later rows the
max of `high-low`, `|high - prev_close|`, `|low - prev_close|`. -/
def trueRanges : List Bar → List ℚ
  | [] => []
  | b :: rest =>
      (b.high - b.low) ::
        (rest.zip (b :: rest)).map fun p =>
          max (p.1.high - p.1.low) (max |p.1.high - p.2.close| |p.1.low - p.2.close|)

/-- `feature_engineering.calculate_atr` (lines 76-85): 14-bar rolling
mean of true range, `0.0` when the window never fills. -/
def calculate_atr (bars : List Bar) (period : ℕ) : ℚ :=
  match rollMeanLast period (trueRanges bars) with
  | some a => a
  | none => 0

/-- `feature_engineering.calculate_vwap` (lines 94-98): rolling
typical-price volume ratio, falling back to the last close when the
result is `nan` (window not full, or `0/0`). -/
def calculate_vwap (bars : List Bar) (period : ℕ) : FVal :=
  let tpv := bars.map fun b => (b.high + b.low + b.close) / 3 * b.volume
  let v := bars.map (·.volume)
  let r : FVal :=
    if period ≤ bars.length then
      FVal.div (.q (lastN tpv period).sum) (.q (lastN v period).sum)
    else .nan
  if r.isna then .q (lastD (bars.map (·.close)) 0) else r

/-! ## extract_features (feature_engineering.py lines 101-294) -/

/-- Failure modes of `extract_features`: the explicit 200-bar
`ValueError` (the spec's `InsufficientHistory`), and the `IndexError`
Python would raise on `data.iloc[-1]` if the selected window were
empty. -/
inductive FeatErr
  | insufficientHistory
  | indexError
deriving DecidableEq, Repr

/-- The feature dictionary built by `extract_features` after the length
check, in source insertion order, before the final NaN/Inf
sanitisation.  `data` is the selected window, `current` its last bar;
`rlog`/`rsqrt` abstract `np.log`/`np.sqrt`.  The relative-strength
block is embedded positionally (the service always passes a benchmark
slice index-aligned with `data`, for which pandas label alignment is
positional). -/
def featuresCore (rlog rsqrt : FVal → FVal) (data : List Bar) (current : Bar)
    (spy : Option (List Bar)) : List (String × FVal) :=
  let closes := data.map (·.close)
  let highs := data.map (·.high)
  let lows := data.map (·.low)
  let vols := data.map (·.volume)
  let m := data.length
  let log_return_1d : FVal :=
    if 1 < m then rlog (FVal.div (.q (ilocNeg closes 1)) (.q (ilocNeg closes 2))) else .q 0
  let log_return_5d : FVal :=
    if 5 < m then rlog (FVal.div (.q (ilocNeg closes 1)) (.q (ilocNeg closes 6))) else .q 0
  let log_return_21d : FVal :=
    if 21 < m then rlog (FVal.div (.q (ilocNeg closes 1)) (.q (ilocNeg closes 22))) else .q 0
  let macd := calculate_macd closes 12 26 9
  let rsiv := calculate_rsi closes 14
  let rsi_oversold : FVal := if FVal.flt rsiv (.q 30) then .q 1 else .q 0
  let rsi_overbought : FVal := if FVal.flt (.q 70) rsiv then .q 1 else .q 0
  let bb := calculate_bollinger_bands rsqrt closes 20 2
  let bb_width := FVal.sub bb.upper bb.lower
  let bb_zscore : FVal :=
    if FVal.flt (.q 0) bb_width then
      FVal.div (FVal.sub (.q current.close) bb.middle) (FVal.div bb_width (.q 4))
    else .q 0
  let ema_20 := ewmaLast 20 closes
  let ema_50 := ewmaLast 50 closes
  let price_to_ema20 : FVal := if 0 < ema_20 then .q (current.close / ema_20 - 1) else .q 0
  let price_to_ema50 : FVal := if 0 < ema_50 then .q (current.close / ema_50 - 1) else .q 0
  let returns := pctChange closes
  let sqrt252 := rsqrt (.q 252)
  let realized_vol_5d : FVal :=
    if 5 ≤ returns.length then FVal.mul (sStd rsqrt (lastN returns 5)) sqrt252 else .q 0
  let realized_vol_21d : FVal :=
    if 21 ≤ returns.length then FVal.mul (sStd rsqrt (lastN returns 21)) sqrt252 else .q 0
  let atr := calculate_atr data 14
  let atr_normalized : FVal := if 0 < current.close then .q (atr / current.close) else .q 0
  let hl_range_normalized : FVal :=
    if 0 < current.close then .q ((current.high - current.low) / current.close) else .q 0
  let parkinson_vol : FVal :=
    if 20 ≤ m then
      let hl_ratio :=
        List.zipWith (fun h l => rlog (FVal.div (.q h) (.q l))) (lastN highs 20) (lastN lows 20)
      FVal.mul
        (rsqrt (FVal.div (npMean (hl_ratio.map fun x => FVal.mul x x))
          (FVal.mul (.q 4) (rlog (.q 2)))))
        sqrt252
    else .q 0
  let vol_63d : FVal :=
    if 63 ≤ returns.length then FVal.mul (sStd rsqrt (lastN returns 63)) sqrt252
    else realized_vol_21d
  let vol_regime : FVal :=
    if FVal.flt (.q 0) vol_63d then FVal.sub (FVal.div realized_vol_21d vol_63d) (.q 1)
    else .q 0
  let volume_mean : ℚ := (lastN vols 20).sum / ((lastN vols 20).length : ℚ)
  let volume_std : FVal := sStd rsqrt ((lastN vols 20).map FVal.q)
  let volume_zscore : FVal :=
    if FVal.flt (.q 0) volume_std then
      FVal.div (.q (current.volume - volume_mean)) volume_std
    else .q 0
  let volume_change : FVal :=
    if 1 < m then
      if 0 < ilocNeg vols 2 then .q (current.volume / ilocNeg vols 2 - 1) else .q 0
    else .q 0
  let turnover : FVal := .q (current.volume * current.close)
  let vwap := calculate_vwap data 20
  let vwap_deviation : FVal :=
    if FVal.flt (.q 0) vwap then FVal.sub (FVal.div (.q current.close) vwap) (.q 1) else .q 0
  let vol_sma_5 : ℚ := (lastN vols 5).sum / ((lastN vols 5).length : ℚ)
  let vol_sma_20 : ℚ := (lastN vols 20).sum / ((lastN vols 20).length : ℚ)
  let volume_trend : FVal := if 0 < vol_sma_20 then .q (vol_sma_5 / vol_sma_20 - 1) else .q 0
  let rel : FVal × FVal × FVal :=
    match spy with
    | some spyBars =>
        if m ≤ spyBars.length then
          let spyCloses := spyBars.map (·.close)
          let spy_returns := pctChange spyCloses
          let stock_returns := pctChange closes
          let mrBeta : FVal × FVal :=
            if 21 ≤ stock_returns.length then
              let pairs :=
                (stock_returns.zip (lastN spy_returns stock_returns.length)).filter
                  fun p => !p.1.isna && !p.2.isna
              if 21 ≤ pairs.length then
                let recent := lastN pairs 21
                let covariance := sCov recent
                let spy_variance := sVar (recent.map (·.2))
                let beta :=
                  if FVal.flt (.q 0) spy_variance then FVal.div covariance spy_variance
                  else .q 1
                let spy_return_1d := if 0 < spy_returns.length then lastF spy_returns else .q 0
                let stock_return_1d :=
                  if 0 < stock_returns.length then lastF stock_returns else .q 0
                (FVal.sub stock_return_1d (FVal.mul beta spy_return_1d), beta)
              else (.q 0, .q 1)
            else (.q 0, .q 1)
          let spy_return_21d : FVal :=
            if 22 ≤ spyBars.length then
              FVal.sub (FVal.div (.q (ilocNeg spyCloses 1)) (.q (ilocNeg spyCloses 22))) (.q 1)
            else .q 0
          let stock_return_21d : FVal :=
            if 22 ≤ closes.length then
              FVal.sub (FVal.div (.q (ilocNeg closes 1)) (.q (ilocNeg closes 22))) (.q 1)
            else .q 0
          (mrBeta.1, mrBeta.2, FVal.sub stock_return_21d spy_return_21d)
        else (.q 0, .q 1, .q 0)
    | none => (.q 0, .q 1, .q 0)
  let gap : FVal :=
    if 1 < m then
      if 0 < ilocNeg closes 2 then .q (current.open_ / ilocNeg closes 2 - 1) else .q 0
    else .q 0
  let intraday_return : FVal :=
    if 0 < current.open_ then .q (current.close / current.open_ - 1) else .q 0
  let price_position : FVal :=
    if 0 < current.high - current.low then
      .q ((current.close - current.low) / (current.high - current.low))
    else .q (1/2)
  [("log_return_1d", log_return_1d),
   ("log_return_5d", log_return_5d),
   ("log_return_21d", log_return_21d),
   ("macd_line", .q macd.macd),
   ("macd_signal", .q macd.signal),
   ("macd_histogram", .q macd.histogram),
   ("rsi", rsiv),
   ("rsi_oversold", rsi_oversold),
   ("rsi_overbought", rsi_overbought),
   ("bb_zscore", bb_zscore),
   ("price_to_ema20", price_to_ema20),
   ("price_to_ema50", price_to_ema50),
   ("realized_vol_5d", realized_vol_5d),
   ("realized_vol_21d", realized_vol_21d),
   ("atr_normalized", atr_normalized),
   ("hl_range_normalized", hl_range_normalized),
   ("parkinson_vol", parkinson_vol),
   ("vol_regime", vol_regime),
   ("volume_zscore", volume_zscore),
   ("volume_change", volume_change),
   ("turnover", turnover),
   ("vwap_deviation", vwap_deviation),
   ("volume_trend", volume_trend),
   ("market_residual_return", rel.1),
   ("beta_to_spy", rel.2.1),
   ("relative_strength_vs_spy", rel.2.2),
   ("gap", gap),
   ("intraday_return", intraday_return),
   ("price_position", price_position)]

/-- The final loop of `extract_features` (lines 289-292): every `nan`
or infinite feature value is replaced by `0.0`. -/
def sanitizeFeatures (l : List (String × FVal)) : List (String × FVal) :=
  l.map fun p => (p.1, if p.2.isna || p.2.isInf then .q 0 else p.2)

/-- `feature_engineering.extract_features`.  The 200-bar check is made
on the FULL history `df` (before the window `df.iloc[:index+1]` is
selected), exactly as in the source.  `index = -1` selects the whole
history; the service only ever passes `-1` or an index `≥ 0`, and for
other negative indices this embedding selects a prefix rather than
Python's end-relative slice. -/
def extract_features (rlog rsqrt : FVal → FVal) (df : List Bar) (index : ℤ)
    (spy : Option (List Bar)) : Except FeatErr (List (String × FVal)) :=
  if df.length < 200 then .error .insufficientHistory
  else
    let data := if index = -1 then df else df.take (index + 1).toNat
    match data.getLast? with
    | none => .error .indexError
    | some current => .ok (sanitizeFeatures (featuresCore rlog rsqrt data current spy))

/-! ## ML ensemble (src/python-ml-service/models.py) -/

/-- Error raised by `MLEnsemble.predict` before training
(`ValueError("Models not trained yet. Call train() first.")` in the
source; `NotTrained` in the spec's taxonomy). -/
inductive MLErr
  | notTrained
deriving DecidableEq, Repr

/-- `MLEnsemble`: the four member regressors are abstract prediction
functions on a feature row (the spec's abstract Predictor capability);
the tree models additionally carry abstract per-feature importances.
`is_trained` is set by `train`. -/
structure MLEnsemble where
  linear_model : List ℚ → ℚ
  lasso_model : List ℚ → ℚ
  rf_model : List ℚ → ℚ
  gb_model : List ℚ → ℚ
  rf_importances : List ℚ
  gb_importances : List ℚ
  feature_names : List String
  is_trained : Bool

/-- `MLEnsemble.predict` (models.py lines 75-112): raises before
training, otherwise the fixed weighted average
`0.2/0.15/0.35/0.3` of member predictions. -/
def MLEnsemble.predict (e : MLEnsemble) (X : List (List ℚ)) : Except MLErr (List ℚ) :=
  if e.is_trained = false then .error .notTrained
  else
    .ok (X.map fun x =>
      e.linear_model x * (2/10) + e.lasso_model x * (15/100) +
        e.rf_model x * (35/100) + e.gb_model x * (3/10))

/-- `MLEnsemble.predict(X, return_individual=True)`: same guard,
per-member predictions. -/
def MLEnsemble.predictIndividual (e : MLEnsemble) (X : List (List ℚ)) :
    Except MLErr (List (ℚ × ℚ × ℚ × ℚ)) :=
  if e.is_trained = false then .error .notTrained
  else .ok (X.map fun x => (e.linear_model x, e.lasso_model x, e.rf_model x, e.gb_model x))

/-- `MLEnsemble.calculate_confidence` (models.py lines 137-163): it
first calls `predict(X, return_individual=True)` (hence fails with
`NotTrained` before training), then per row computes the member mean
and population standard deviation (`np.std`, `ddof=0`, abstracted
through `sqrtf` for the square root), the coefficient of variation
`cv = std/|mean|` guarded to `1.0` when `|mean| ≤ 0.01`, and clips
`1 - cv` to `[0.6, 0.95]` (`np.clip(a, lo, hi) = min(hi, max(a, lo))`). -/
def MLEnsemble.calculate_confidence (e : MLEnsemble) (sqrtf : ℚ → ℚ)
    (X : List (List ℚ)) : Except MLErr (List ℚ) :=
  (e.predictIndividual X).map fun preds =>
    preds.map fun p =>
      let mean := (p.1 + p.2.1 + p.2.2.1 + p.2.2.2) / 4
      let variance :=
        ((p.1 - mean) ^ 2 + (p.2.1 - mean) ^ 2 + (p.2.2.1 - mean) ^ 2 +
          (p.2.2.2 - mean) ^ 2) / 4
      let std := sqrtf variance
      let cv := if |mean| > 1/100 then std / |mean| else 1
      min (95/100) (max (6/10) (1 - cv))

/-- Insertion step for `sorted(..., key=lambda x: x[1], reverse=True)`. -/
def insertByImportanceDesc (p : String × ℚ) : List (String × ℚ) → List (String × ℚ)
  | [] => [p]
  | r :: rest => if r.2 < p.2 then p :: r :: rest else r :: insertByImportanceDesc p rest

/-- `MLEnsemble.get_feature_importance` (models.py lines 114-135): the
untrained ensemble returns an EMPTY dict (it does not raise); the
trained one averages the tree models' importances and sorts descending
by importance.  The `Except` return type records that the Python method
could in principle raise, which this code path never does. -/
def MLEnsemble.get_feature_importance (e : MLEnsemble) :
    Except MLErr (List (String × ℚ)) :=
  if e.is_trained = false then .ok []
  else
    let avg := List.zipWith (fun a b => (a + b) / 2) e.rf_importances e.gb_importances
    .ok ((e.feature_names.zip avg).foldr insertByImportanceDesc [])

/-! ## Concrete inputs used by counterexamples and witnesses -/

/-- Ledger with one winning SELL (+100) and one losing SELL (-50). -/
def ledgerWinLoss : List Trade :=
  [⟨0, .sell, 100, 0, 100, 1/2, 100, .takeProfit⟩,
   ⟨1, .sell, 100, 0, 100, 1/2, -50, .stopLoss⟩]

/-- Ledger with a single winning SELL (+300) and no losses. -/
def ledgerWinOnly : List Trade :=
  [⟨0, .sell, 100, 0, 100, 1/2, 300, .takeProfit⟩]

/-- A constant unit price bar. -/
def bar1 : Bar := ⟨1, 1, 1, 1, 1⟩

/-- A 199-bar history. -/
def df199 : List Bar := List.replicate 199 bar1

/-- A 200-bar history. -/
def df200 : List Bar := List.replicate 200 bar1

/-- An ensemble on which `train` was never called. -/
def untrainedEnsemble : MLEnsemble :=
  ⟨fun _ => 0, fun _ => 0, fun _ => 0, fun _ => 0, [], [], [], false⟩

/-- A trained ensemble whose members all predict `1`. -/
def trainedEnsemble : MLEnsemble :=
  ⟨fun _ => 1, fun _ => 1, fun _ => 1, fun _ => 1, [], [], [], true⟩

/-- Backtester configuration for the time-exit run: 10000 capital, zero
commission. -/
def c2cfg : BTConfig := ⟨10000, 0⟩

/-- Predicted returns: a single bullish signal at bar 5, neutral
otherwise. -/
def c2preds : List ℚ := [0, 0, 0, 0, 0, 1/100, 0, 0, 0, 0, 0, 0]

/-- Constant high confidence. -/
def c2confs : List ℚ := [9/10, 9/10, 9/10, 9/10, 9/10, 9/10, 9/10, 9/10, 9/10, 9/10, 9/10, 9/10]

/-- Constant price 100 (no take-profit, no stop-loss ever triggers). -/
def c2prices : List ℚ := [100, 100, 100, 100, 100, 100, 100, 100, 100, 100, 100, 100]

/-- Dates are the bar indices. -/
def c2dates : List ℕ := [0, 1, 2, 3, 4, 5, 6, 7, 8, 9, 10, 11]

/-- A strictly rising 15-bar close series. -/
def risingPrices : List ℚ :=
  [1, 2, 3, 4, 5, 6, 7, 8, 9, 10, 11, 12, 13, 14, 15]

/-- A strictly falling 15-bar close series. -/
def fallingPrices : List ℚ :=
  [15, 14, 13, 12, 11, 10, 9, 8, 7, 6, 5, 4, 3, 2, 1]

/-! # Theorems -/

/-! ## Sanitisation -/

/-- Every feature surviving the final NaN/Inf replacement loop is a
finite value. -/
theorem isFin_sanitizeFeatures (l : List (String × FVal)) :
    ∀ p ∈ sanitizeFeatures l, p.2.isFin = true := by
  intro p hp
  simp only [sanitizeFeatures, List.mem_map] at hp
  obtain ⟨r, hr, rfl⟩ := hp
  by_cases h : r.2.isna || r.2.isInf
  · simp [h, FVal.isFin]
  · cases hv : r.2 <;> simp [hv, FVal.isna, FVal.isInf, FVal.isFin] at h ⊢

/-! ## C3 / C9: the 200-bar precondition of extract_features -/

/-- C3: for every price history shorter than 200 bars `extract_features`
fails with `InsufficientHistory`; for every history of exactly 200 bars
it succeeds and every value of the returned feature vector is finite
(no NaN or Inf), for any interpretation of `np.log`/`np.sqrt` and any
benchmark argument. -/
theorem extract_features_two_hundred (rlog rsqrt : FVal → FVal)
    (spy : Option (List Bar)) :
    (∀ df : List Bar, df.length < 200 →
      extract_features rlog rsqrt df (-1) spy = .error .insufficientHistory) ∧
    (∀ df : List Bar, df.length = 200 →
      ∃ l, extract_features rlog rsqrt df (-1) spy = .ok l ∧
        ∀ p ∈ l, p.2.isFin = true) := by
  constructor
  · intro df h
    unfold extract_features
    rw [if_pos h]
  · intro df h
    have hne : df ≠ [] := by
      intro he
      rw [he] at h
      simp at h
    have h200 : ¬ df.length < 200 := by omega
    refine ⟨sanitizeFeatures (featuresCore rlog rsqrt df (df.getLast hne) spy), ?_, ?_⟩
    · unfold extract_features
      rw [if_neg h200]
      have hdata : (if (-1 : ℤ) = -1 then df else df.take ((-1 : ℤ) + 1).toNat) = df :=
        if_pos rfl
      rw [hdata]
      simp only [List.getLast?_eq_getLast _ hne]
    · exact isFin_sanitizeFeatures _

/-- C3 witness: a 199-bar history is rejected and a 200-bar history is
accepted with an all-finite feature vector. -/
theorem extract_features_two_hundred_witness :
    extract_features (fun _ => .nan) (fun _ => .nan) df199 (-1) none
        = .error .insufficientHistory ∧
      ∃ l, extract_features (fun _ => .nan) (fun _ => .nan) df200 (-1) none = .ok l ∧
        ∀ p ∈ l, p.2.isFin = true :=
  ⟨(extract_features_two_hundred (fun _ => .nan) (fun _ => .nan) none).1 df199
      (by simp only [df199, List.length_replicate]; omega),
   (extract_features_two_hundred (fun _ => .nan) (fun _ => .nan) none).2 df200
      (by simp only [df200, List.length_replicate])⟩

/-- C9: the 200-bar check of `extract_features` is made against the full
history length only, never against the window `df.iloc[:index+1]`
actually used: with at least 200 bars of history, every explicit index
`i ≥ 0` succeeds (returning finite features), even when the selected
window holds fewer than 200 bars — its length is only
`min (i+1) len(df)`. -/
theorem extract_features_ignores_window_length (rlog rsqrt : FVal → FVal)
    (spy : Option (List Bar)) (df : List Bar) (i : ℤ)
    (hi : 0 ≤ i) (hlen : 200 ≤ df.length) :
    ∃ l, extract_features rlog rsqrt df i spy = .ok l ∧
      (df.take (i + 1).toNat).length = min (i + 1).toNat df.length ∧
      ∀ p ∈ l, p.2.isFin = true := by
  have hne : df.take (i + 1).toNat ≠ [] := by
    intro he
    have hlt := List.length_take (i + 1).toNat df
    rw [he] at hlt
    simp at hlt
    omega
  have hneg : ¬ i = -1 := by omega
  have h200 : ¬ df.length < 200 := by omega
  refine ⟨sanitizeFeatures (featuresCore rlog rsqrt (df.take (i + 1).toNat)
      ((df.take (i + 1).toNat).getLast hne) spy), ?_, List.length_take _ _, ?_⟩
  · unfold extract_features
    rw [if_neg h200]
    have hdata : (if i = -1 then df else df.take (i + 1).toNat) = df.take (i + 1).toNat :=
      if_neg hneg
    rw [hdata]
    simp only [List.getLast?_eq_getLast _ hne]
  · exact isFin_sanitizeFeatures _

/-- C9 witness: 200 bars of history with explicit index `0` — a window
of a single bar — still succeeds with finite features. -/
theorem extract_features_ignores_window_length_witness :
    ∃ l, extract_features (fun _ => .nan) (fun _ => .nan) df200 0 none = .ok l ∧
      (df200.take ((0 : ℤ) + 1).toNat).length = min ((0 : ℤ) + 1).toNat df200.length ∧
      ∀ p ∈ l, p.2.isFin = true :=
  extract_features_ignores_window_length (fun _ => .nan) (fun _ => .nan) none df200 0
    (by decide) (by simp only [df200, List.length_replicate]; omega)

/-! ## C4: behaviour of the untrained ensemble -/

/-- C4 counterexample: the claim states that `feature_importance` on an
untrained ensemble fails with `NotTrained`; in the code it instead
returns an empty importance dict without failing. -/
theorem untrained_importance_returns_empty :
    untrainedEnsemble.is_trained = false ∧
    untrainedEnsemble.get_feature_importance = .ok [] ∧
    untrainedEnsemble.get_feature_importance ≠ .error .notTrained := by
  refine ⟨rfl, rfl, ?_⟩
  rw [show untrainedEnsemble.get_feature_importance = Except.ok [] from rfl]
  simp

/-- C4 (amended): on an untrained ensemble `predict` and
`calculate_confidence` fail with `NotTrained`, while
`get_feature_importance` returns the empty importance map without
failing. -/
theorem untrained_ensemble_failures (e : MLEnsemble) (sqrtf : ℚ → ℚ)
    (X : List (List ℚ)) (h : e.is_trained = false) :
    e.predict X = .error .notTrained ∧
    e.calculate_confidence sqrtf X = .error .notTrained ∧
    e.get_feature_importance = .ok [] := by
  refine ⟨?_, ?_, ?_⟩ <;>
    simp [MLEnsemble.predict, MLEnsemble.calculate_confidence,
      MLEnsemble.predictIndividual, MLEnsemble.get_feature_importance, h, Except.map]

/-- C4 witness: the untrained ensemble exhibits all three behaviours. -/
theorem untrained_ensemble_failures_witness :
    untrainedEnsemble.predict [] = .error .notTrained ∧
    untrainedEnsemble.calculate_confidence (fun _ => 0) [] = .error .notTrained ∧
    untrainedEnsemble.get_feature_importance = .ok [] :=
  untrained_ensemble_failures untrainedEnsemble (fun _ => 0) [] rfl

/-! ## C5: confidence formula and range -/

/-- C5: for every trained ensemble and feature matrix, the confidence of
each row is `clamp(1 - cv, 0.60, 0.95)` where `cv` is the per-row
coefficient of variation `std/|mean|` of the four member predictions,
replaced by `1.0` when `|mean| ≤ 0.01`; consequently every returned
confidence lies in `[0.60, 0.95]`. -/
theorem confidence_formula_and_bounds (e : MLEnsemble) (sqrtf : ℚ → ℚ)
    (X : List (List ℚ)) (h : e.is_trained = true) :
    ∃ l, e.calculate_confidence sqrtf X = .ok l ∧
      l = X.map (fun x =>
        let mean := (e.linear_model x + e.lasso_model x + e.rf_model x + e.gb_model x) / 4
        let std := sqrtf (((e.linear_model x - mean) ^ 2 + (e.lasso_model x - mean) ^ 2 +
          (e.rf_model x - mean) ^ 2 + (e.gb_model x - mean) ^ 2) / 4)
        let cv := if |mean| ≤ 1/100 then (1 : ℚ) else std / |mean|
        min (95/100) (max (6/10) (1 - cv))) ∧
      ∀ c ∈ l, 6/10 ≤ c ∧ c ≤ 95/100 := by
  have hT : ¬ e.is_trained = false := by simp [h]
  simp only [MLEnsemble.calculate_confidence, MLEnsemble.predictIndividual, if_neg hT,
    Except.map, List.map_map]
  refine ⟨_, rfl, ?_, ?_⟩
  · apply List.map_congr_left
    intro x _
    simp only [Function.comp]
    by_cases hm :
        |(e.linear_model x + e.lasso_model x + e.rf_model x + e.gb_model x) / 4| ≤ 1/100
    · rw [if_neg (by simpa using hm), if_pos hm]
    · rw [if_pos (by simpa using lt_of_not_le hm), if_neg hm]
  · intro c hc
    simp only [List.mem_map] at hc
    obtain ⟨x, _, rfl⟩ := hc
    constructor
    · exact le_min (by norm_num) (le_max_left _ _)
    · exact min_le_left _ _

/-- C5 witness: a concrete trained ensemble yields in-range confidence. -/
theorem confidence_formula_and_bounds_witness :
    ∃ l, trainedEnsemble.calculate_confidence (fun _ => 0) [[0]] = .ok l ∧
      l = [[(0 : ℚ)]].map (fun x =>
        let mean := (trainedEnsemble.linear_model x + trainedEnsemble.lasso_model x +
          trainedEnsemble.rf_model x + trainedEnsemble.gb_model x) / 4
        let std := (fun _ => (0 : ℚ)) (((trainedEnsemble.linear_model x - mean) ^ 2 +
          (trainedEnsemble.lasso_model x - mean) ^ 2 +
          (trainedEnsemble.rf_model x - mean) ^ 2 +
          (trainedEnsemble.gb_model x - mean) ^ 2) / 4)
        let cv := if |mean| ≤ 1/100 then (1 : ℚ) else std / |mean|
        min (95/100) (max (6/10) (1 - cv))) ∧
      ∀ c ∈ l, 6/10 ≤ c ∧ c ≤ 95/100 :=
  confidence_formula_and_bounds trainedEnsemble (fun _ => 0) [[0]] rfl

/-! ## Backtest loop invariant -/

/-- Unfolding one iteration of the trading loop. -/
theorem runLoop_succ (cfg : BTConfig) (preds confs prices : List ℚ)
    (dates : List ℕ) (k : ℕ) :
    runLoop cfg preds confs prices dates (k + 1) =
      backtestStep cfg (preds.getD k 0) (confs.getD k 0) (prices.getD k 0) k
        (dates.getD k 0) (runLoop cfg preds confs prices dates k) := by
  unfold runLoop
  rw [List.range_succ, List.foldl_append]
  rfl

/-- `otherAction` is an involution. -/
theorem otherAction_otherAction (e : Action) : otherAction (otherAction e) = e := by
  cases e <;> rfl

/-- No action equals the other action. -/
theorem otherAction_ne (e : Action) : otherAction e ≠ e := by
  cases e <;> simp [otherAction]

/-- Appending the expected next action preserves alternation: after an
even number of entries the expected action is `e`, after an odd number
it is `otherAction e`. -/
theorem alternatesFrom_append (e : Action) (l : List Action) (a : Action)
    (h : alternatesFrom e l = true)
    (ha : a = if l.length % 2 = 0 then e else otherAction e) :
    alternatesFrom e (l ++ [a]) = true := by
  induction l generalizing e with
  | nil =>
    simp only [List.length_nil] at ha
    norm_num at ha
    subst ha
    simp [alternatesFrom]
  | cons b r ih =>
    simp only [alternatesFrom, Bool.and_eq_true, decide_eq_true_eq] at h
    obtain ⟨hb, hr⟩ := h
    simp only [List.cons_append, alternatesFrom, Bool.and_eq_true, decide_eq_true_eq]
    refine ⟨hb, ih (otherAction e) hr ?_⟩
    rw [otherAction_otherAction]
    by_cases hp : r.length % 2 = 0
    · have hodd : ¬ (b :: r).length % 2 = 0 := by
        simp only [List.length_cons]
        omega
      rw [if_neg hodd] at ha
      rw [if_pos hp]
      exact ha
    · have heven : (b :: r).length % 2 = 0 := by
        simp only [List.length_cons]
        omega
      rw [if_pos heven] at ha
      rw [if_neg hp]
      exact ha

/-- Counting one action in a cons cell. -/
theorem countAct_cons (x b : Action) (r : List Action) :
    countAct x (b :: r) = (if b = x then 1 else 0) + countAct x r := by
  by_cases h : b = x
  · simp [countAct, List.filter_cons, h]
    omega
  · simp [countAct, List.filter_cons, h]

/-- In a ledger alternating from `e`, the action `e` occurs
`(len+1)/2` times and `otherAction e` occurs `len/2` times. -/
theorem countAct_of_alternatesFrom (e : Action) (l : List Action)
    (h : alternatesFrom e l = true) :
    countAct e l = (l.length + 1) / 2 ∧ countAct (otherAction e) l = l.length / 2 := by
  induction l generalizing e with
  | nil => simp [countAct]
  | cons b r ih =>
    simp only [alternatesFrom, Bool.and_eq_true, decide_eq_true_eq] at h
    obtain ⟨rfl, hr⟩ := h
    have hih := ih (otherAction b) hr
    rw [otherAction_otherAction] at hih
    constructor
    · rw [countAct_cons, if_pos rfl, hih.2]
      simp only [List.length_cons]
      omega
    · rw [countAct_cons, if_neg (Ne.symm (otherAction_ne b)), hih.1]
      simp only [List.length_cons]
      omega

/-- `countAct` over the action sequence matches the trade filters of
`_calculate_metrics`. -/
theorem countAct_actionsOf (a : Action) (tr : List Trade) :
    countAct a (actionsOf tr) = (tr.filter fun t => decide (t.action = a)).length := by
  induction tr with
  | nil => rfl
  | cons t r ih =>
    by_cases h : t.action = a <;>
      simp [countAct, actionsOf, List.filter_cons, h, ← ih]

/-- One loop iteration preserves the trading invariant, provided the
bar price is positive and the commission rate lies in `[0, 1)`. -/
theorem backtestStep_inv (cfg : BTConfig) (pred conf price : ℚ) (i date : ℕ)
    (s : BTState) (hc0 : 0 ≤ cfg.commission) (hc1 : cfg.commission < 1)
    (hprice : 0 < price) (h : BTInv s) :
    BTInv (backtestStep cfg pred conf price i date s) := by
  obtain ⟨hcash, hshares, hpos, hflat, halt, hodd⟩ := h
  unfold backtestStep
  by_cases h1 : pred > 1/500 ∧ conf ≥ 3/5 ∧ s.position ≠ true
  · rw [if_pos h1]
    by_cases h2 : s.cash > 0
    · rw [if_pos h2]
      have hposf : s.position = false := by
        rcases h1 with ⟨-, -, hne⟩
        cases hsp : s.position
        · rfl
        · exact absurd hsp hne
      have heven : s.trades.length % 2 = 0 := by
        rw [hposf] at hodd
        simp only [Bool.false_eq_true, false_iff] at hodd
        omega
      have hcost : 0 < price * (1 + cfg.commission) := mul_pos hprice (by linarith)
      have hsh : 0 < s.cash / (price * (1 + cfg.commission)) := div_pos h2 hcost
      unfold BTInv
      refine ⟨le_refl 0, le_of_lt hsh, by simpa using hsh, by simp, ?_, ?_⟩
      · show alternatesFrom .buy (actionsOf (s.trades ++ [_])) = true
        unfold actionsOf
        rw [List.map_append]
        exact alternatesFrom_append _ _ _ halt (by rw [List.length_map, if_pos heven])
      · simp only [List.length_append, List.length_singleton, true_iff]
        omega
    · rw [if_neg h2]
      exact ⟨hcash, hshares, hpos, hflat, halt, hodd⟩
  · rw [if_neg h1]
    by_cases h3 : s.position = true ∧ s.shares > 0
    · rw [if_pos h3]
      cases hro : sellReasonAt pred conf price s.entry_price i s.trades with
      | none => exact ⟨hcash, hshares, hpos, hflat, halt, hodd⟩
      | some r =>
        have hoddlen : s.trades.length % 2 = 1 := hodd.mp h3.1
        have hcash' : 0 < s.shares * (price * (1 - cfg.commission)) :=
          mul_pos h3.2 (mul_pos hprice (by linarith))
        unfold BTInv
        refine ⟨le_of_lt hcash', le_refl 0, by simp, fun _ => hcash', ?_, ?_⟩
        · show alternatesFrom .buy (actionsOf (s.trades ++ [_])) = true
          unfold actionsOf
          rw [List.map_append]
          refine alternatesFrom_append _ _ _ halt ?_
          rw [List.length_map, if_neg (by omega)]
          rfl
        · simp only [List.length_append, List.length_singleton, Bool.false_eq_true,
            false_iff]
          omega
    · rw [if_neg h3]
      exact ⟨hcash, hshares, hpos, hflat, halt, hodd⟩

/-- The trading invariant holds at every state of the loop, for every
run with positive initial capital, commission in `[0, 1)`, positive
prices and at least as many prices as feature rows. -/
theorem runLoop_inv (cfg : BTConfig) (preds confs prices : List ℚ) (dates : List ℕ)
    (hcap : 0 < cfg.initial_capital) (hc0 : 0 ≤ cfg.commission)
    (hc1 : cfg.commission < 1) (hp : ∀ p ∈ prices, 0 < p)
    (hlen : preds.length ≤ prices.length) :
    ∀ k, k ≤ preds.length - 1 → BTInv (runLoop cfg preds confs prices dates k) := by
  intro k
  induction k with
  | zero =>
    intro _
    show BTInv (initState cfg)
    exact ⟨le_of_lt hcap, le_refl 0, by simp [initState], fun _ => hcap, rfl,
      by simp [initState]⟩
  | succ k ih =>
    intro hk
    rw [runLoop_succ]
    have hkp : k < prices.length := by omega
    have hpk : 0 < prices.getD k 0 := by
      rw [List.getD_eq_getElem prices 0 hkp]
      exact hp _ (List.getElem_mem _)
    exact backtestStep_inv _ _ _ _ _ _ _ hc0 hc1 hpk (ih (by omega))

/-! ## C1: final value, no open position, total return -/

/-- C1: after the forced final-bar liquidation the returned
`final_value` equals the cash balance, no open position remains
(`shares = 0` in the final state), and the returned total-return
percentage equals `(final_value/initial_capital - 1) * 100`. -/
theorem backtest_final_value_cash (cfg : BTConfig) (preds confs prices : List ℚ)
    (dates : List ℕ) (hcap : 0 < cfg.initial_capital) (hc0 : 0 ≤ cfg.commission)
    (hc1 : cfg.commission < 1) (hp : ∀ p ∈ prices, 0 < p)
    (hlen : preds.length ≤ prices.length) :
    (run_backtest cfg preds confs prices dates).final_value
        = (finalState cfg preds confs prices dates).cash ∧
      (finalState cfg preds confs prices dates).shares = 0 ∧
      (run_backtest cfg preds confs prices dates).total_return
        = ((run_backtest cfg preds confs prices dates).final_value
            / cfg.initial_capital - 1) * 100 := by
  have hinv := runLoop_inv cfg preds confs prices dates hcap hc0 hc1 hp hlen
    (preds.length - 1) (le_refl _)
  refine ⟨rfl, ?_, ?_⟩
  · unfold finalState
    by_cases hs : (runLoop cfg preds confs prices dates (preds.length - 1)).shares > 0
    · rw [if_pos hs]
    · rw [if_neg hs]
      exact le_antisymm (not_lt.mp hs) hinv.2.1
  · have hne : cfg.initial_capital ≠ 0 := ne_of_gt hcap
    show ((finalState cfg preds confs prices dates).cash - cfg.initial_capital)
          / cfg.initial_capital * 100
        = ((finalState cfg preds confs prices dates).cash / cfg.initial_capital - 1) * 100
    rw [sub_div, div_self hne]

/-- C1 witness: a concrete two-bar run. -/
theorem backtest_final_value_cash_witness :
    (run_backtest ⟨10000, 1/1000⟩ [1/100, 0] [9/10, 9/10] [100, 100] [0, 1]).final_value
        = (finalState ⟨10000, 1/1000⟩ [1/100, 0] [9/10, 9/10] [100, 100] [0, 1]).cash ∧
      (finalState ⟨10000, 1/1000⟩ [1/100, 0] [9/10, 9/10] [100, 100] [0, 1]).shares = 0 ∧
      (run_backtest ⟨10000, 1/1000⟩ [1/100, 0] [9/10, 9/10] [100, 100] [0, 1]).total_return
        = ((run_backtest ⟨10000, 1/1000⟩ [1/100, 0] [9/10, 9/10] [100, 100]
            [0, 1]).final_value / (10000 : ℚ) - 1) * 100 :=
  backtest_final_value_cash ⟨10000, 1/1000⟩ [1/100, 0] [9/10, 9/10] [100, 100] [0, 1]
    (by norm_num) (by norm_num) (by norm_num) (by decide) (by decide)

/-! ## C2: the time-based exit -/

/-- C2 evaluation: with a single BUY at bar 5, constant prices and
neutral signals afterwards, the code emits a `time_exit` SELL already
at bar 10 — only 5 bars after the BUY — because `last_buy_idx` is
computed as the number of BUY trades minus one (here `0`) instead of
the bar index of the last BUY (here `5`), and `10 - 0 ≥ 10`. -/
theorem backtest_time_exit_after_five_bars :
    (run_backtest c2cfg c2preds c2confs c2prices c2dates).trades.map
        (fun t => (t.date, t.action, t.reason))
      = [(5, Action.buy, SellReason.noReason), (10, Action.sell, SellReason.timeExit)] := by
  have s1 : runLoop c2cfg c2preds c2confs c2prices c2dates 1
      = ⟨10000, 0, false, [], 0, [10000], ([] : List ℚ)⟩ := by
    rw [runLoop_succ]
    show backtestStep c2cfg 0 (9/10) 100 0 0 (initState c2cfg) = _
    norm_num [backtestStep, initState, sellReasonAt, c2cfg, List.filter]
  have s2 : runLoop c2cfg c2preds c2confs c2prices c2dates 2
      = ⟨10000, 0, false, [], 0, [10000, 10000], [0]⟩ := by
    rw [runLoop_succ, s1]
    show backtestStep c2cfg 0 (9/10) 100 1 1
        ⟨10000, 0, false, [], 0, [10000], ([] : List ℚ)⟩ = _
    have g : ([10000] : List ℚ).getD 0 0 = 10000 := rfl
    norm_num [backtestStep, initState, sellReasonAt, c2cfg, List.filter, g]
  have s3 : runLoop c2cfg c2preds c2confs c2prices c2dates 3
      = ⟨10000, 0, false, [], 0, [10000, 10000, 10000], [0, 0]⟩ := by
    rw [runLoop_succ, s2]
    show backtestStep c2cfg 0 (9/10) 100 2 2
        ⟨10000, 0, false, [], 0, [10000, 10000], [0]⟩ = _
    have g : ([10000, 10000] : List ℚ).getD 1 0 = 10000 := rfl
    norm_num [backtestStep, initState, sellReasonAt, c2cfg, List.filter, g]
  have s4 : runLoop c2cfg c2preds c2confs c2prices c2dates 4
      = ⟨10000, 0, false, [], 0, [10000, 10000, 10000, 10000], [0, 0, 0]⟩ := by
    rw [runLoop_succ, s3]
    show backtestStep c2cfg 0 (9/10) 100 3 3
        ⟨10000, 0, false, [], 0, [10000, 10000, 10000], [0, 0]⟩ = _
    have g : ([10000, 10000, 10000] : List ℚ).getD 2 0 = 10000 := rfl
    norm_num [backtestStep, initState, sellReasonAt, c2cfg, List.filter, g]
  have s5 : runLoop c2cfg c2preds c2confs c2prices c2dates 5
      = ⟨10000, 0, false, [], 0, [10000, 10000, 10000, 10000, 10000], [0, 0, 0, 0]⟩ := by
    rw [runLoop_succ, s4]
    show backtestStep c2cfg 0 (9/10) 100 4 4
        ⟨10000, 0, false, [], 0, [10000, 10000, 10000, 10000], [0, 0, 0]⟩ = _
    have g : ([10000, 10000, 10000, 10000] : List ℚ).getD 3 0 = 10000 := rfl
    norm_num [backtestStep, initState, sellReasonAt, c2cfg, List.filter, g]
  have s6 : runLoop c2cfg c2preds c2confs c2prices c2dates 6
      = ⟨0, 100, true, [⟨5, .buy, 100, 100, 101, 9/10, 0, .noReason⟩], 100, [10000, 10000, 10000, 10000, 10000, 10000], [0, 0, 0, 0, 0]⟩ := by
    rw [runLoop_succ, s5]
    show backtestStep c2cfg (1/100) (9/10) 100 5 5
        ⟨10000, 0, false, [], 0, [10000, 10000, 10000, 10000, 10000], [0, 0, 0, 0]⟩ = _
    have g : ([10000, 10000, 10000, 10000, 10000] : List ℚ).getD 4 0 = 10000 := rfl
    norm_num [backtestStep, initState, sellReasonAt, c2cfg, List.filter, g]
  have s7 : runLoop c2cfg c2preds c2confs c2prices c2dates 7
      = ⟨0, 100, true, [⟨5, .buy, 100, 100, 101, 9/10, 0, .noReason⟩], 100, [10000, 10000, 10000, 10000, 10000, 10000, 10000], [0, 0, 0, 0, 0, 0]⟩ := by
    rw [runLoop_succ, s6]
    show backtestStep c2cfg 0 (9/10) 100 6 6
        ⟨0, 100, true, [⟨5, .buy, 100, 100, 101, 9/10, 0, .noReason⟩], 100, [10000, 10000, 10000, 10000, 10000, 10000], [0, 0, 0, 0, 0]⟩ = _
    have g : ([10000, 10000, 10000, 10000, 10000, 10000] : List ℚ).getD 5 0 = 10000 := rfl
    norm_num [backtestStep, initState, sellReasonAt, c2cfg, List.filter, g]
  have s8 : runLoop c2cfg c2preds c2confs c2prices c2dates 8
      = ⟨0, 100, true, [⟨5, .buy, 100, 100, 101, 9/10, 0, .noReason⟩], 100, [10000, 10000, 10000, 10000, 10000, 10000, 10000, 10000], [0, 0, 0, 0, 0, 0, 0]⟩ := by
    rw [runLoop_succ, s7]
    show backtestStep c2cfg 0 (9/10) 100 7 7
        ⟨0, 100, true, [⟨5, .buy, 100, 100, 101, 9/10, 0, .noReason⟩], 100, [10000, 10000, 10000, 10000, 10000, 10000, 10000], [0, 0, 0, 0, 0, 0]⟩ = _
    have g : ([10000, 10000, 10000, 10000, 10000, 10000, 10000] : List ℚ).getD 6 0 = 10000 := rfl
    norm_num [backtestStep, initState, sellReasonAt, c2cfg, List.filter, g]
  have s9 : runLoop c2cfg c2preds c2confs c2prices c2dates 9
      = ⟨0, 100, true, [⟨5, .buy, 100, 100, 101, 9/10, 0, .noReason⟩], 100, [10000, 10000, 10000, 10000, 10000, 10000, 10000, 10000, 10000], [0, 0, 0, 0, 0, 0, 0, 0]⟩ := by
    rw [runLoop_succ, s8]
    show backtestStep c2cfg 0 (9/10) 100 8 8
        ⟨0, 100, true, [⟨5, .buy, 100, 100, 101, 9/10, 0, .noReason⟩], 100, [10000, 10000, 10000, 10000, 10000, 10000, 10000, 10000], [0, 0, 0, 0, 0, 0, 0]⟩ = _
    have g : ([10000, 10000, 10000, 10000, 10000, 10000, 10000, 10000] : List ℚ).getD 7 0 = 10000 := rfl
    norm_num [backtestStep, initState, sellReasonAt, c2cfg, List.filter, g]
  have s10 : runLoop c2cfg c2preds c2confs c2prices c2dates 10
      = ⟨0, 100, true, [⟨5, .buy, 100, 100, 101, 9/10, 0, .noReason⟩], 100, [10000, 10000, 10000, 10000, 10000, 10000, 10000, 10000, 10000, 10000], [0, 0, 0, 0, 0, 0, 0, 0, 0]⟩ := by
    rw [runLoop_succ, s9]
    show backtestStep c2cfg 0 (9/10) 100 9 9
        ⟨0, 100, true, [⟨5, .buy, 100, 100, 101, 9/10, 0, .noReason⟩], 100, [10000, 10000, 10000, 10000, 10000, 10000, 10000, 10000, 10000], [0, 0, 0, 0, 0, 0, 0, 0]⟩ = _
    have g : ([10000, 10000, 10000, 10000, 10000, 10000, 10000, 10000, 10000] : List ℚ).getD 8 0 = 10000 := rfl
    norm_num [backtestStep, initState, sellReasonAt, c2cfg, List.filter, g]
  have s11 : runLoop c2cfg c2preds c2confs c2prices c2dates 11
      = ⟨10000, 0, false, [⟨5, .buy, 100, 100, 101, 9/10, 0, .noReason⟩, ⟨10, .sell, 100, 0, 100, 9/10, 0, .timeExit⟩], 100, [10000, 10000, 10000, 10000, 10000, 10000, 10000, 10000, 10000, 10000, 10000], [0, 0, 0, 0, 0, 0, 0, 0, 0, 0]⟩ := by
    rw [runLoop_succ, s10]
    show backtestStep c2cfg 0 (9/10) 100 10 10
        ⟨0, 100, true, [⟨5, .buy, 100, 100, 101, 9/10, 0, .noReason⟩], 100, [10000, 10000, 10000, 10000, 10000, 10000, 10000, 10000, 10000, 10000], [0, 0, 0, 0, 0, 0, 0, 0, 0]⟩ = _
    have g : ([10000, 10000, 10000, 10000, 10000, 10000, 10000, 10000, 10000, 10000] : List ℚ).getD 9 0 = 10000 := rfl
    norm_num [backtestStep, initState, sellReasonAt, c2cfg, List.filter, g]
  have hfin : finalState c2cfg c2preds c2confs c2prices c2dates
      = ⟨10000, 0, false, [⟨5, .buy, 100, 100, 101, 9/10, 0, .noReason⟩, ⟨10, .sell, 100, 0, 100, 9/10, 0, .timeExit⟩], 100, [10000, 10000, 10000, 10000, 10000, 10000, 10000, 10000, 10000, 10000, 10000], [0, 0, 0, 0, 0, 0, 0, 0, 0, 0]⟩ := by
    unfold finalState
    rw [show c2preds.length - 1 = 11 from rfl, s11]
    norm_num
  rw [show (run_backtest c2cfg c2preds c2confs c2prices c2dates).trades
      = (finalState c2cfg c2preds c2confs c2prices c2dates).trades from rfl, hfin]
  rfl

/-! ## C6: the BUY rule -/

/-- C6: at any bar `k` of a run (positive capital, commission in
`[0,1)`, positive prices), if the state is FLAT and
`predicted_return > 0.002` and `confidence ≥ 0.60`, the simulator
enters LONG spending all cash at `price[k] * (1 + commission)`, records
`price[k]` as entry price and appends the BUY trade; if FLAT and the
signal condition fails, no trade is appended; and in a LONG state no
BUY is ever appended. -/
theorem backtest_buy_rule (cfg : BTConfig) (preds confs prices : List ℚ)
    (dates : List ℕ) (hcap : 0 < cfg.initial_capital) (hc0 : 0 ≤ cfg.commission)
    (hc1 : cfg.commission < 1) (hp : ∀ p ∈ prices, 0 < p)
    (hlen : preds.length ≤ prices.length) (k : ℕ)
    (hk : k + 1 ≤ preds.length - 1) :
    (((runLoop cfg preds confs prices dates k).position = false →
      preds.getD k 0 > 1/500 → confs.getD k 0 ≥ 3/5 →
      (runLoop cfg preds confs prices dates (k+1)).position = true ∧
      (runLoop cfg preds confs prices dates (k+1)).cash = 0 ∧
      (runLoop cfg preds confs prices dates (k+1)).shares
        = (runLoop cfg preds confs prices dates k).cash
            / (prices.getD k 0 * (1 + cfg.commission)) ∧
      (runLoop cfg preds confs prices dates (k+1)).entry_price = prices.getD k 0 ∧
      (runLoop cfg preds confs prices dates (k+1)).trades
        = (runLoop cfg preds confs prices dates k).trades ++
          [⟨dates.getD k 0, .buy, prices.getD k 0,
            (runLoop cfg preds confs prices dates k).cash
              / (prices.getD k 0 * (1 + cfg.commission)),
            prices.getD k 0 * (1 + preds.getD k 0), confs.getD k 0, 0, .noReason⟩])) ∧
    (((runLoop cfg preds confs prices dates k).position = false →
      ¬(preds.getD k 0 > 1/500 ∧ confs.getD k 0 ≥ 3/5) →
      (runLoop cfg preds confs prices dates (k+1)).trades
        = (runLoop cfg preds confs prices dates k).trades)) ∧
    ((runLoop cfg preds confs prices dates k).position = true →
      countBuys (runLoop cfg preds confs prices dates (k+1)).trades
        = countBuys (runLoop cfg preds confs prices dates k).trades) := by
  have hinv := runLoop_inv cfg preds confs prices dates hcap hc0 hc1 hp hlen k (by omega)
  obtain ⟨hcash, hshares, hpos, hflat, halt, hodd⟩ := hinv
  rw [runLoop_succ]
  refine ⟨fun hflatk hpred hconf => ?_, fun hflatk hnosig => ?_, fun hlong => ?_⟩
  · have hc : (runLoop cfg preds confs prices dates k).cash > 0 := hflat hflatk
    unfold backtestStep
    rw [if_pos ⟨hpred, hconf, by rw [hflatk]; simp⟩, if_pos hc]
    exact ⟨rfl, rfl, rfl, rfl, rfl⟩
  · unfold backtestStep
    rw [if_neg (by
      intro hcon
      exact hnosig ⟨hcon.1, hcon.2.1⟩)]
    rw [if_neg (by
      intro hcon
      rw [hflatk] at hcon
      simp at hcon)]
  · unfold backtestStep
    rw [if_neg (by
      intro hcon
      exact hcon.2.2 hlong)]
    by_cases h3 : (runLoop cfg preds confs prices dates k).position = true ∧
        (runLoop cfg preds confs prices dates k).shares > 0
    · rw [if_pos h3]
      cases hro : sellReasonAt (preds.getD k 0) (confs.getD k 0) (prices.getD k 0)
          (runLoop cfg preds confs prices dates k).entry_price k
          (runLoop cfg preds confs prices dates k).trades with
      | none => rfl
      | some r =>
        show countBuys (_ ++ [_]) = _
        unfold countBuys
        rw [List.filter_append]
        simp
    · rw [if_neg h3]

/-- C6 witness: a flat state with a bullish signal at bar 0 buys. -/
theorem backtest_buy_rule_witness :
    (((runLoop ⟨10000, 1/1000⟩ [1/100, 0, 0] [9/10, 9/10, 9/10] [100, 100, 100]
        [0, 1, 2] 0).position = false →
      ([(1 : ℚ)/100, 0, 0]).getD 0 0 > 1/500 → ([(9 : ℚ)/10, 9/10, 9/10]).getD 0 0 ≥ 3/5 →
      (runLoop ⟨10000, 1/1000⟩ [1/100, 0, 0] [9/10, 9/10, 9/10] [100, 100, 100]
        [0, 1, 2] 1).position = true ∧
      (runLoop ⟨10000, 1/1000⟩ [1/100, 0, 0] [9/10, 9/10, 9/10] [100, 100, 100]
        [0, 1, 2] 1).cash = 0 ∧
      (runLoop ⟨10000, 1/1000⟩ [1/100, 0, 0] [9/10, 9/10, 9/10] [100, 100, 100]
        [0, 1, 2] 1).shares
        = (runLoop ⟨10000, 1/1000⟩ [1/100, 0, 0] [9/10, 9/10, 9/10] [100, 100, 100]
            [0, 1, 2] 0).cash
            / (([(100 : ℚ), 100, 100]).getD 0 0 * (1 + (⟨10000, 1/1000⟩ : BTConfig).commission)) ∧
      (runLoop ⟨10000, 1/1000⟩ [1/100, 0, 0] [9/10, 9/10, 9/10] [100, 100, 100]
        [0, 1, 2] 1).entry_price = ([(100 : ℚ), 100, 100]).getD 0 0 ∧
      (runLoop ⟨10000, 1/1000⟩ [1/100, 0, 0] [9/10, 9/10, 9/10] [100, 100, 100]
        [0, 1, 2] 1).trades
        = (runLoop ⟨10000, 1/1000⟩ [1/100, 0, 0] [9/10, 9/10, 9/10] [100, 100, 100]
            [0, 1, 2] 0).trades ++
          [⟨([0, 1, 2] : List ℕ).getD 0 0, .buy, ([(100 : ℚ), 100, 100]).getD 0 0,
            (runLoop ⟨10000, 1/1000⟩ [1/100, 0, 0] [9/10, 9/10, 9/10] [100, 100, 100]
              [0, 1, 2] 0).cash
              / (([(100 : ℚ), 100, 100]).getD 0 0 * (1 + (⟨10000, 1/1000⟩ : BTConfig).commission)),
            ([(100 : ℚ), 100, 100]).getD 0 0 * (1 + ([(1 : ℚ)/100, 0, 0]).getD 0 0),
            ([(9 : ℚ)/10, 9/10, 9/10]).getD 0 0, 0, .noReason⟩])) ∧
    (((runLoop ⟨10000, 1/1000⟩ [1/100, 0, 0] [9/10, 9/10, 9/10] [100, 100, 100]
        [0, 1, 2] 0).position = false →
      ¬(([(1 : ℚ)/100, 0, 0]).getD 0 0 > 1/500 ∧ ([(9 : ℚ)/10, 9/10, 9/10]).getD 0 0 ≥ 3/5) →
      (runLoop ⟨10000, 1/1000⟩ [1/100, 0, 0] [9/10, 9/10, 9/10] [100, 100, 100]
        [0, 1, 2] 1).trades
        = (runLoop ⟨10000, 1/1000⟩ [1/100, 0, 0] [9/10, 9/10, 9/10] [100, 100, 100]
            [0, 1, 2] 0).trades)) ∧
    ((runLoop ⟨10000, 1/1000⟩ [1/100, 0, 0] [9/10, 9/10, 9/10] [100, 100, 100]
        [0, 1, 2] 0).position = true →
      countBuys (runLoop ⟨10000, 1/1000⟩ [1/100, 0, 0] [9/10, 9/10, 9/10] [100, 100, 100]
        [0, 1, 2] 1).trades
        = countBuys (runLoop ⟨10000, 1/1000⟩ [1/100, 0, 0] [9/10, 9/10, 9/10] [100, 100, 100]
            [0, 1, 2] 0).trades) :=
  backtest_buy_rule ⟨10000, 1/1000⟩ [1/100, 0, 0] [9/10, 9/10, 9/10] [100, 100, 100]
    [0, 1, 2] (by norm_num) (by norm_num) (by norm_num) (by decide) (by decide) 0
    (by decide)

/-! ## C10: ledger shape -/

/-- C10: along every run the position flag is LONG exactly when the
share count is positive; the completed ledger (including the forced
`final_exit`) strictly alternates BUY and SELL starting with BUY, and
its number of SELL trades equals its number of BUY trades. -/
theorem backtest_ledger_shape (cfg : BTConfig) (preds confs prices : List ℚ)
    (dates : List ℕ) (hcap : 0 < cfg.initial_capital) (hc0 : 0 ≤ cfg.commission)
    (hc1 : cfg.commission < 1) (hp : ∀ p ∈ prices, 0 < p)
    (hlen : preds.length ≤ prices.length) :
    (∀ k, k ≤ preds.length - 1 →
      ((runLoop cfg preds confs prices dates k).position = true ↔
        0 < (runLoop cfg preds confs prices dates k).shares)) ∧
    alternatesFrom .buy
        (actionsOf (run_backtest cfg preds confs prices dates).trades) = true ∧
    countSells (run_backtest cfg preds confs prices dates).trades
      = countBuys (run_backtest cfg preds confs prices dates).trades := by
  have hinvA := runLoop_inv cfg preds confs prices dates hcap hc0 hc1 hp hlen
  obtain ⟨hcash, hshares, hpos, hflat, halt, hodd⟩ :=
    hinvA (preds.length - 1) (le_refl _)
  have key : alternatesFrom .buy
        (actionsOf (finalState cfg preds confs prices dates).trades) = true ∧
      (finalState cfg preds confs prices dates).trades.length % 2 = 0 := by
    unfold finalState
    by_cases hs : (runLoop cfg preds confs prices dates (preds.length - 1)).shares > 0
    · rw [if_pos hs]
      have hoddlen := hodd.mp (hpos.mpr hs)
      constructor
      · show alternatesFrom .buy (actionsOf (_ ++ [_])) = true
        unfold actionsOf
        rw [List.map_append]
        refine alternatesFrom_append _ _ _ halt ?_
        rw [List.length_map, if_neg (by omega)]
        rfl
      · simp only [List.length_append, List.length_singleton]
        omega
    · rw [if_neg hs]
      have hzero : (runLoop cfg preds confs prices dates (preds.length - 1)).shares = 0 :=
        le_antisymm (not_lt.mp hs) hshares
      have hflatB : (runLoop cfg preds confs prices dates (preds.length - 1)).position
          = false := by
        cases hsp : (runLoop cfg preds confs prices dates (preds.length - 1)).position
        · rfl
        · have := hpos.mp hsp
          rw [hzero] at this
          exact absurd this (lt_irrefl 0)
      rw [hflatB] at hodd
      simp only [Bool.false_eq_true, false_iff] at hodd
      exact ⟨halt, by omega⟩
  have htr : (run_backtest cfg preds confs prices dates).trades
      = (finalState cfg preds confs prices dates).trades := rfl
  refine ⟨fun k hk => (hinvA k hk).2.2.1, by rw [htr]; exact key.1, ?_⟩
  have hcounts := countAct_of_alternatesFrom .buy _ key.1
  have hbuy : countBuys (finalState cfg preds confs prices dates).trades
      = countAct .buy (actionsOf (finalState cfg preds confs prices dates).trades) :=
    (countAct_actionsOf _ _).symm
  have hsell : countSells (finalState cfg preds confs prices dates).trades
      = countAct .sell (actionsOf (finalState cfg preds confs prices dates).trades) :=
    (countAct_actionsOf _ _).symm
  rw [htr, hbuy, hsell]
  have hlenact : (actionsOf (finalState cfg preds confs prices dates).trades).length
      = (finalState cfg preds confs prices dates).trades.length :=
    List.length_map _ _
  have h2 := hcounts.2
  rw [show otherAction .buy = Action.sell from rfl] at h2
  rw [hcounts.1, h2, hlenact]
  omega

/-- C10 witness: the concrete run of the time-exit scenario satisfies
all three ledger-shape properties. -/
theorem backtest_ledger_shape_witness :
    (∀ k, k ≤ c2preds.length - 1 →
      ((runLoop c2cfg c2preds c2confs c2prices c2dates k).position = true ↔
        0 < (runLoop c2cfg c2preds c2confs c2prices c2dates k).shares)) ∧
    alternatesFrom .buy
        (actionsOf (run_backtest c2cfg c2preds c2confs c2prices c2dates).trades) = true ∧
    countSells (run_backtest c2cfg c2preds c2confs c2prices c2dates).trades
      = countBuys (run_backtest c2cfg c2preds c2confs c2prices c2dates).trades :=
  backtest_ledger_shape c2cfg c2preds c2confs c2prices c2dates (by norm_num [c2cfg])
    (by norm_num [c2cfg]) (by norm_num [c2cfg]) (by decide) (by decide)

/-! ## C8: RSI on monotone price series -/

/-- In `(xs.drop 1).zip xs` each pair is a consecutive pair
`(x_{i+1}, x_i)`, so a `Chain'` relation on `xs` holds of every pair. -/
theorem chain_rel_zip_drop {r : ℚ → ℚ → Prop} :
    ∀ xs : List ℚ, xs.Chain' r → ∀ p ∈ (xs.drop 1).zip xs, r p.2 p.1 := by
  intro xs
  induction xs with
  | nil => intro _ p hp; simp at hp
  | cons x t ih =>
    intro h p hp
    cases t with
    | nil => simp at hp
    | cons y t' =>
      rw [List.chain'_cons] at h
      simp only [List.drop_one, List.tail_cons] at hp
      rw [List.zip_cons_cons] at hp
      rcases List.mem_cons.mp hp with h1 | h2
      · subst h1; exact h.1
      · have h3 := ih h.2
        simp only [List.drop_one, List.tail_cons] at h3
        exact h3 p h2

/-- The window sum of the last `period` entries of `0 :: l` only sees
entries of `l` when `l` has at least `period` entries. -/
theorem lastN_cons_zero_subset (l : List ℚ) (w : ℕ) (hw : w ≤ l.length) :
    ∀ x ∈ lastN ((0 : ℚ) :: l) w, x ∈ l := by
  intro x hx
  unfold lastN at hx
  have hlen : ((0 : ℚ) :: l).length - w = (l.length - w) + 1 := by
    simp only [List.length_cons]
    omega
  rw [hlen, List.drop_succ_cons] at hx
  exact List.mem_of_mem_drop hx

/-- C8: on a strictly rising close series of at least 15 bars the RSI of
`feature_engineering.calculate_rsi` is exactly 100 (all losses vanish,
`rs = gain/0 = +inf`, `100 - 100/(1+inf) = 100`); on a strictly falling
series it is exactly 0 (`rs = 0`, `100 - 100/1 = 0`). -/
theorem rsi_monotone_extremes (xs ys : List ℚ) (hx : 15 ≤ xs.length)
    (hy : 15 ≤ ys.length) (hrise : xs.Chain' (· < ·))
    (hfall : ys.Chain' (· > ·)) :
    calculate_rsi xs 14 = .q 100 ∧ calculate_rsi ys 14 = .q 0 := by
  constructor
  · -- rising: every delta is positive
    obtain ⟨a, as, rfl⟩ : ∃ a as, xs = a :: as := by
      cases xs with
      | nil => simp at hx
      | cons a as => exact ⟨a, as, rfl⟩
    have hdpos : ∀ d ∈ (((a :: as).drop 1).zip (a :: as)).map (fun p => p.1 - p.2), 0 < d := by
      intro d hd
      simp only [List.mem_map] at hd
      obtain ⟨p, hp, rfl⟩ := hd
      have := chain_rel_zip_drop (a :: as) hrise p hp
      simpa [sub_pos] using this
    simp only [calculate_rsi]
    set deltas := (((a :: as).drop 1).zip (a :: as)).map (fun p => p.1 - p.2) with hdel
    have hdlen : deltas.length = as.length := by
      simp [hdel, List.length_zip]
    have has : 14 ≤ as.length := by
      simp only [List.length_cons] at hx
      omega
    have hgain : deltas.map (fun d => if 0 < d then d else 0) = deltas := by
      conv_rhs => rw [← List.map_id deltas]
      apply List.map_congr_left
      intro d hd
      simp [if_pos (hdpos d hd)]
    have hloss : ∀ x ∈ deltas.map (fun d => if d < 0 then -d else (0 : ℚ)), x = 0 := by
      intro x hxm
      simp only [List.mem_map] at hxm
      obtain ⟨d, hd, rfl⟩ := hxm
      rw [if_neg (not_lt.mpr (le_of_lt (hdpos d hd)))]
    have hglen : ((0 : ℚ) :: deltas.map (fun d => if 0 < d then d else 0)).length
        = as.length + 1 := by
      simp [hdlen]
    have hllen : ((0 : ℚ) :: deltas.map (fun d => if d < 0 then -d else 0)).length
        = as.length + 1 := by
      simp [hdlen]
    have hle : 14 ≤ as.length + 1 := by
      simp only [List.length_cons] at hx
      omega
    have hrg : rollMeanLast 14 ((0 : ℚ) :: deltas.map (fun d => if 0 < d then d else 0))
        = some ((lastN ((0 : ℚ) :: deltas.map (fun d => if 0 < d then d else 0)) 14).sum
            / (14 : ℚ)) := by
      unfold rollMeanLast
      rw [if_pos ⟨by norm_num, by rw [hglen]; exact hle⟩]
      rfl
    have hrl : rollMeanLast 14 ((0 : ℚ) :: deltas.map (fun d => if d < 0 then -d else 0))
        = some ((lastN ((0 : ℚ) :: deltas.map (fun d => if d < 0 then -d else 0)) 14).sum
            / (14 : ℚ)) := by
      unfold rollMeanLast
      rw [if_pos ⟨by norm_num, by rw [hllen]; exact hle⟩]
      rfl
    rw [hrg, hrl]
    have hsumpos : 0 < (lastN ((0 : ℚ) :: deltas.map (fun d => if 0 < d then d else 0)) 14).sum := by
      apply List.sum_pos
      · intro x hxm
        have hx2 := lastN_cons_zero_subset _ 14 (by rw [List.length_map, hdlen]; omega) x hxm
        rw [hgain] at hx2
        exact hdpos x hx2
      · have : (lastN ((0 : ℚ) :: deltas.map (fun d => if 0 < d then d else 0)) 14).length
            = 14 := by
          unfold lastN
          rw [List.length_drop, hglen]
          omega
        intro he
        rw [he] at this
        simp at this
    have hsumzero : (lastN ((0 : ℚ) :: deltas.map (fun d => if d < 0 then -d else 0)) 14).sum
        = 0 := by
      apply List.sum_eq_zero
      intro x hxm
      exact hloss x (lastN_cons_zero_subset _ 14 (by rw [List.length_map, hdlen]; omega) x hxm)
    have hg : (0 : ℚ) < (lastN ((0 : ℚ) :: deltas.map (fun d => if 0 < d then d else 0)) 14).sum / (14 : ℚ) :=
      div_pos hsumpos (by norm_num)
    rw [hsumzero]
    simp only [FVal.div, FVal.add, FVal.sub, FVal.neg, FVal.isna]
    norm_num [hg, hg.ne']
  · -- falling: every delta is negative
    obtain ⟨a, as, rfl⟩ : ∃ a as, ys = a :: as := by
      cases ys with
      | nil => simp at hy
      | cons a as => exact ⟨a, as, rfl⟩
    have hdneg : ∀ d ∈ (((a :: as).drop 1).zip (a :: as)).map (fun p => p.1 - p.2), d < 0 := by
      intro d hd
      simp only [List.mem_map] at hd
      obtain ⟨p, hp, rfl⟩ := hd
      have := chain_rel_zip_drop (a :: as) hfall p hp
      simpa [sub_neg] using this
    simp only [calculate_rsi]
    set deltas := (((a :: as).drop 1).zip (a :: as)).map (fun p => p.1 - p.2) with hdel
    have hdlen : deltas.length = as.length := by
      simp [hdel, List.length_zip]
    have has : 14 ≤ as.length := by
      simp only [List.length_cons] at hy
      omega
    have hgain : ∀ x ∈ deltas.map (fun d => if 0 < d then d else (0 : ℚ)), x = 0 := by
      intro x hxm
      simp only [List.mem_map] at hxm
      obtain ⟨d, hd, rfl⟩ := hxm
      rw [if_neg (not_lt.mpr (le_of_lt (hdneg d hd)))]
    have hloss : deltas.map (fun d => if d < 0 then -d else 0) = deltas.map (fun d => -d) := by
      apply List.map_congr_left
      intro d hd
      rw [if_pos (hdneg d hd)]
    have hle : 14 ≤ as.length + 1 := by
      simp only [List.length_cons] at hy
      omega
    have hlpos : ∀ x ∈ deltas.map (fun d => -d), 0 < x := by
      intro x hxm
      simp only [List.mem_map] at hxm
      obtain ⟨d, hd, rfl⟩ := hxm
      simpa using hdneg d hd
    have hglen : ((0 : ℚ) :: deltas.map (fun d => if 0 < d then d else 0)).length
        = as.length + 1 := by
      simp [hdlen]
    have hllen : ((0 : ℚ) :: deltas.map (fun d => if d < 0 then -d else 0)).length
        = as.length + 1 := by
      simp [hdlen]
    have hrg : rollMeanLast 14 ((0 : ℚ) :: deltas.map (fun d => if 0 < d then d else 0))
        = some ((lastN ((0 : ℚ) :: deltas.map (fun d => if 0 < d then d else 0)) 14).sum
            / (14 : ℚ)) := by
      unfold rollMeanLast
      rw [if_pos ⟨by norm_num, by rw [hglen]; exact hle⟩]
      rfl
    have hrl : rollMeanLast 14 ((0 : ℚ) :: deltas.map (fun d => if d < 0 then -d else 0))
        = some ((lastN ((0 : ℚ) :: deltas.map (fun d => if d < 0 then -d else 0)) 14).sum
            / (14 : ℚ)) := by
      unfold rollMeanLast
      rw [if_pos ⟨by norm_num, by rw [hllen]; exact hle⟩]
      rfl
    rw [hrg, hrl]
    have hsumzero : (lastN ((0 : ℚ) :: deltas.map (fun d => if 0 < d then d else 0)) 14).sum
        = 0 := by
      apply List.sum_eq_zero
      intro x hxm
      exact hgain x (lastN_cons_zero_subset _ 14 (by rw [List.length_map, hdlen]; omega) x hxm)
    have hsumpos : 0 < (lastN ((0 : ℚ) :: deltas.map (fun d => if d < 0 then -d else 0)) 14).sum := by
      apply List.sum_pos
      · intro x hxm
        have hx2 := lastN_cons_zero_subset _ 14 (by rw [List.length_map, hdlen]; omega) x hxm
        rw [hloss] at hx2
        exact hlpos x hx2
      · have : (lastN ((0 : ℚ) :: deltas.map (fun d => if d < 0 then -d else 0)) 14).length
            = 14 := by
          unfold lastN
          rw [List.length_drop, hllen]
          omega
        intro he
        rw [he] at this
        simp at this
    have hl : (0 : ℚ) < (lastN ((0 : ℚ) :: deltas.map (fun d => if d < 0 then -d else 0)) 14).sum / (14 : ℚ) :=
      div_pos hsumpos (by norm_num)
    rw [hsumzero]
    simp only [FVal.div, FVal.add, FVal.sub, FVal.neg, FVal.isna]
    norm_num [hl.ne']

/-- C8 witness: the concrete 15-bar rising and falling series. -/
theorem rsi_monotone_extremes_witness :
    calculate_rsi risingPrices 14 = .q 100 ∧ calculate_rsi fallingPrices 14 = .q 0 :=
  rsi_monotone_extremes risingPrices fallingPrices (by decide) (by decide)
    (by norm_num [risingPrices, List.chain'_cons, List.chain'_singleton])
    (by norm_num [fallingPrices, List.chain'_cons, List.chain'_singleton])

/-! ## C7: profit factor -/

/-- C7: the profit factor equals `gross_profit/gross_loss` when
`gross_loss > 0`, the sentinel `999.0` when `gross_loss = 0` and
`gross_profit > 0`, and `1.0` when both are zero. -/
theorem profit_factor_cases (trades : List Trade) :
    (0 < grossLoss trades →
      profitFactor trades = grossProfit trades / grossLoss trades) ∧
    (grossLoss trades = 0 → 0 < grossProfit trades → profitFactor trades = 999) ∧
    (grossLoss trades = 0 → grossProfit trades = 0 → profitFactor trades = 1) := by
  refine ⟨fun h => ?_, fun h0 hp => ?_, fun h0 hp => ?_⟩
  · simp [profitFactor, h]
  · simp [profitFactor, h0, hp]
  · simp [profitFactor, h0, hp]

/-- C7 witness: the three concrete ledgers of the claim —
`100/50` gives `2.0`, `300/0` gives `999.0`, `0/0` gives `1.0`. -/
theorem profit_factor_cases_witness :
    (0 < grossLoss ledgerWinLoss ∧
      profitFactor ledgerWinLoss = grossProfit ledgerWinLoss / grossLoss ledgerWinLoss ∧
      grossProfit ledgerWinLoss = 100 ∧ grossLoss ledgerWinLoss = 50 ∧
      profitFactor ledgerWinLoss = 2) ∧
    (grossLoss ledgerWinOnly = 0 ∧ 0 < grossProfit ledgerWinOnly ∧
      grossProfit ledgerWinOnly = 300 ∧ profitFactor ledgerWinOnly = 999) ∧
    (grossLoss ([] : List Trade) = 0 ∧ grossProfit ([] : List Trade) = 0 ∧
      profitFactor ([] : List Trade) = 1) := by
  have hgp1 : grossProfit ledgerWinLoss = 100 := by
    norm_num [grossProfit, winningTrades, sellTrades, ledgerWinLoss, List.filter]
  have hgl1 : grossLoss ledgerWinLoss = 50 := by
    norm_num [grossLoss, losingTrades, sellTrades, ledgerWinLoss, List.filter]
  have hgp2 : grossProfit ledgerWinOnly = 300 := by
    norm_num [grossProfit, winningTrades, sellTrades, ledgerWinOnly, List.filter]
  have hgl2 : grossLoss ledgerWinOnly = 0 := by
    norm_num [grossLoss, losingTrades, sellTrades, ledgerWinOnly, List.filter]
  have hgp3 : grossProfit ([] : List Trade) = 0 := by
    norm_num [grossProfit, winningTrades, sellTrades, List.filter]
  have hgl3 : grossLoss ([] : List Trade) = 0 := by
    norm_num [grossLoss, losingTrades, sellTrades, List.filter]
  have hpf1 := (profit_factor_cases ledgerWinLoss).1 (by rw [hgl1]; norm_num)
  have hpf2 := (profit_factor_cases ledgerWinOnly).2.1 hgl2 (by rw [hgp2]; norm_num)
  have hpf3 := (profit_factor_cases ([] : List Trade)).2.2 hgl3 hgp3
  refine ⟨⟨by rw [hgl1]; norm_num, hpf1, hgp1, hgl1, ?_⟩,
    ⟨hgl2, by rw [hgp2]; norm_num, hgp2, hpf2⟩, ⟨hgl3, hgp3, hpf3⟩⟩
  rw [hpf1, hgp1, hgl1]
  norm_num

end QuantPilot
